import Mathlib

/-!
Verification development for the trading-signal pipeline
(`all_signals_fetcher.py`, `entry_exit_fetcher.py`, `utils/update_bought_trades.py`).

Python strings are modelled as `List Char`; Python floats are modelled by `PyF`
(exact rationals plus `nan` and signed infinities, with IEEE-style comparison
and arithmetic rules); cells coming from CSV rows are modelled by `PyCell`
(text cells: string / None / NaN) and `NumCell` (numeric cells).  A function
that can raise an uncaught exception is modelled with `Except Unit` / `Option`,
where the error value stands for the exception.
-/

attribute [local semireducible] Rat.mul Rat.inv Rat.add Rat.sub Rat.ofScientific

/-- Decidable equality of `Except` values, so that concrete runs of the
fallible parsers can be checked by `decide`. -/
instance instDecEqExcept {e a : Type} [DecidableEq e] [DecidableEq a] :
    DecidableEq (Except e a) := fun x y =>
  match x, y with
  | .error u, .error v =>
    if h : u = v then isTrue (by rw [h]) else isFalse (fun c => h (Except.error.inj c))
  | .ok u, .ok v =>
    if h : u = v then isTrue (by rw [h]) else isFalse (fun c => h (Except.ok.inj c))
  | .error _, .ok _ => isFalse (fun c => Except.noConfusion c)
  | .ok _, .error _ => isFalse (fun c => Except.noConfusion c)

namespace RD

/-- ASCII whitespace characters recognised by Python `str.strip()`. -/
def wsChar (c : Char) : Bool :=
  c = ' ' || c = '\t' || c = '\n' || c = '\r' || c = '\x0b' || c = '\x0c'

/-- Python `str.lstrip()`. -/
def lstripL (l : List Char) : List Char := l.dropWhile wsChar

/-- Python `str.rstrip()`. -/
def rstripL (l : List Char) : List Char := (l.reverse.dropWhile wsChar).reverse

/-- Python `str.strip()`. -/
def stripL (l : List Char) : List Char := rstripL (lstripL l)

/-- Python `str.lower()` (ASCII range). -/
def lowerL (l : List Char) : List Char := l.map Char.toLower

/-- Python `str.upper()` (ASCII range). -/
def upperL (l : List Char) : List Char := l.map Char.toUpper

/-- Python `value.split(",")`: split on every comma, producing n+1 parts. -/
def splitComma : List Char → List (List Char)
  | [] => [[]]
  | c :: cs =>
    if c = ',' then [] :: splitComma cs
    else
      match splitComma cs with
      | h :: t => (c :: h) :: t
      | [] => [[c]]

/-- Python `sep.join(parts)` for a one-character separator. -/
def joinChar (sep : Char) : List (List Char) → List Char
  | [] => []
  | [x] => x
  | x :: xs => x ++ sep :: joinChar sep xs

/-- Does `pat` occur at the head of `s`? -/
def startsL : List Char → List Char → Bool
  | [], _ => true
  | _ :: _, [] => false
  | p :: ps, c :: cs => p = c && startsL ps cs

/-- Python `pat in s` (substring containment). -/
def containsSub (pat : List Char) : List Char → Bool
  | [] => startsL pat []
  | c :: rest => startsL pat (c :: rest) || containsSub pat rest

def isDigitC (c : Char) : Bool := '0' ≤ c && c ≤ '9'

def digitVal (c : Char) : Nat := c.toNat - ('0').toNat

/-- Numeric value of a digit string (most significant first). -/
def digitsVal (l : List Char) : Nat := l.foldl (fun acc c => 10 * acc + digitVal c) 0

/-- Helper: string literal to character list. -/
def ls (s : String) : List Char := s.toList

/-- Try to match the regex `\d{4}-\d{2}-\d{2}` at the current position. -/
def matchISOAt : List Char → Option (List Char)
  | a :: b :: c :: d :: '-' :: e :: f :: '-' :: g :: h :: _ =>
    if isDigitC a && isDigitC b && isDigitC c && isDigitC d &&
       isDigitC e && isDigitC f && isDigitC g && isDigitC h then
      some [a, b, c, d, '-', e, f, '-', g, h]
    else none
  | _ => none

/-- `re.search(r"(\d{4}-\d{2}-\d{2})", s)`: leftmost match of the date pattern. -/
def findISODate : List Char → Option (List Char)
  | [] => none
  | c :: rest =>
    match matchISOAt (c :: rest) with
    | some m => some m
    | none => findISODate rest

def digitDot (c : Char) : Bool := isDigitC c || c = '.'

/-- Try to match `Price:\s*([0-9.]+)` at the current position; returns the group. -/
def matchPriceAt (l : List Char) : Option (List Char) :=
  if startsL (ls ("Price:")) l then
    let rest := (l.drop 6).dropWhile wsChar
    let tok := rest.takeWhile digitDot
    if tok.isEmpty then none else some tok
  else none

/-- `re.search(r"Price:\s*([0-9.]+)", s)`: leftmost successful match, group 1. -/
def findPriceTok : List Char → Option (List Char)
  | [] => none
  | c :: rest =>
    match matchPriceAt (c :: rest) with
    | some t => some t
    | none => findPriceTok rest

/-- Like `findPriceTok` but also returning the remainder after the whole match
(used to model non-overlapping `re.findall`). -/
def findPriceTokRem : List Char → Option (List Char × List Char)
  | [] => none
  | c :: rest =>
    match matchPriceAt (c :: rest) with
    | some t => some (t, (((c :: rest).drop 6).dropWhile wsChar).drop t.length)
    | none => findPriceTokRem rest

/-- Try to match `([0-9.]+)\s*% ?` at the current position.  A shorter group
prefix is always followed by another `[0-9.]` character, never by `%` or
whitespace, so regex backtracking cannot produce a shorter group: the group is
the maximal `[0-9.]` run, accepted iff it is followed by optional whitespace
and `%`. -/
def matchPctAt (l : List Char) : Option (List Char) :=
  let run := l.takeWhile digitDot
  if run.isEmpty then none
  else
    match (l.drop run.length).dropWhile wsChar with
    | '%' :: _ => some run
    | _ => none

/-- `re.search(r"([0-9.]+)\s*% ?", s)`: leftmost successful match, group 1. -/
def findPctTok : List Char → Option (List Char)
  | [] => none
  | c :: rest =>
    match matchPctAt (c :: rest) with
    | some t => some t
    | none => findPctTok rest

/-- First maximal digit run, as a number: `re.search(r"(\d+)", s)` plus `int`. -/
def findDigitRun : List Char → Option Nat
  | [] => none
  | c :: rest =>
    if isDigitC c then some (digitsVal ((c :: rest).takeWhile isDigitC))
    else findDigitRun rest

/-- Python `float` value: exact rational, or NaN, or a signed infinity
(`inf true` is `-inf`). -/
inductive PyF where
  | nan : PyF
  | inf : Bool → PyF
  | fin : ℚ → PyF
deriving DecidableEq

/-- `float(tok)` for a token drawn from `[0-9.]+`: defined iff the token has at
least one digit and at most one dot.  (The Python value is the nearest binary
double; we use the exact rational.) -/
def pyFloatTok (tok : List Char) : Option ℚ :=
  if tok.any isDigitC && tok.count '.' ≤ 1 then
    let ip := tok.takeWhile (fun c => c ≠ '.')
    let frac := (tok.drop ip.length).drop 1
    some ((digitsVal ip : ℚ) + (digitsVal frac : ℚ) / (10 : ℚ) ^ frac.length)
  else none

/-- Parse an optional exponent suffix `[+-]?\d+`. -/
def parseExpPart (l : List Char) : Option ℤ :=
  match l with
  | '+' :: ds => if ds ≠ [] && ds.all isDigitC then some (digitsVal ds : ℤ) else none
  | '-' :: ds => if ds ≠ [] && ds.all isDigitC then some (-(digitsVal ds : ℤ)) else none
  | ds => if ds ≠ [] && ds.all isDigitC then some (digitsVal ds : ℤ) else none

def zpow10 (e : ℤ) : ℚ := (10 : ℚ) ^ e

/-- Python `float(s)` on an arbitrary string: strips whitespace, optional sign,
then `nan` / `inf` / `infinity` (case-insensitive) or a decimal mantissa with
optional exponent.  Underscored digit groups are not modelled. -/
def pyFloatOfStr (s : List Char) : Option PyF :=
  let t := stripL s
  let (neg, u) :=
    match t with
    | '+' :: r => (false, r)
    | '-' :: r => (true, r)
    | r => (false, r)
  let low := lowerL u
  if low = ls ("nan") then some .nan
  else if low = ls ("inf") || low = ls ("infinity") then some (.inf neg)
  else
    let (mant, expPart) :=
      match low.span (fun c => c ≠ 'e') with
      | (m, []) => (m, none)
      | (m, _ :: e) => (m, some e)
    match pyFloatTok mant with
    | none => none
    | some q =>
      match expPart with
      | none => some (.fin (if neg then -q else q))
      | some ep =>
        match parseExpPart ep with
        | none => none
        | some e => some (.fin ((if neg then -q else q) * zpow10 e))

/-- IEEE-style `a <= b` on Python floats (NaN compares false). -/
def pyfLe : PyF → PyF → Bool
  | .nan, _ => false
  | _, .nan => false
  | .inf n, .inf m => n || !m
  | .inf n, .fin _ => n
  | .fin _, .inf n => !n
  | .fin a, .fin b => a ≤ b

/-- IEEE-style `a < b` on Python floats (NaN compares false). -/
def pyfLt : PyF → PyF → Bool
  | .nan, _ => false
  | _, .nan => false
  | .inf n, .inf m => n && !m
  | .inf n, .fin _ => n
  | .fin _, .inf n => !n
  | .fin a, .fin b => a < b

def pyfGt (a b : PyF) : Bool := pyfLt b a

def pyfGe (a b : PyF) : Bool := pyfLe b a

/-- IEEE-style subtraction. -/
def pyfSub : PyF → PyF → PyF
  | .nan, _ => .nan
  | _, .nan => .nan
  | .fin a, .fin b => .fin (a - b)
  | .fin _, .inf n => .inf (!n)
  | .inf n, .fin _ => .inf n
  | .inf n, .inf m => if n = m then .nan else .inf n

/-- IEEE-style multiplication. -/
def pyfMul : PyF → PyF → PyF
  | .nan, _ => .nan
  | _, .nan => .nan
  | .fin a, .fin b => .fin (a * b)
  | .inf n, .fin q => if q = 0 then .nan else .inf (xor n (q < 0))
  | .fin q, .inf n => if q = 0 then .nan else .inf (xor n (q < 0))
  | .inf n, .inf m => .inf (xor n m)

/-- Python float division; `none` models `ZeroDivisionError` (raised whenever
the divisor is `0.0`, whatever the dividend). -/
def pyfDiv : PyF → PyF → Option PyF
  | a, .fin q =>
    if q = 0 then none
    else
      match a with
      | .nan => some .nan
      | .fin p => some (.fin (p / q))
      | .inf n => some (.inf (xor n (q < 0)))
  | .nan, _ => some .nan
  | _, .nan => some .nan
  | .fin _, .inf _ => some (.fin 0)
  | .inf _, .inf _ => some .nan

/-- A text cell as read from a CSV row / stored in a record: a Python string,
`None`, or a pandas NaN (missing value). -/
inductive PyCell where
  | pcNone : PyCell
  | pcNan : PyCell
  | pcStr : List Char → PyCell
deriving DecidableEq

/-- Python `str(x)` on a text cell. -/
def pyStr : PyCell → List Char
  | .pcNone => ls ("None")
  | .pcNan => ls ("nan")
  | .pcStr s => s

/-- Python truthiness test `not x` for a text cell (`None` and `""` are falsy). -/
def cellFalsy : PyCell → Bool
  | .pcNone => true
  | .pcStr [] => true
  | _ => false

/-- Equality used when a cell is a dict key or set element: `None` equals
`None`, strings compare by content, and NaN is not equal to anything
(including another NaN, matching `float("nan") != float("nan")`; identity-based
dict hits for the very same NaN object are not modelled). -/
def cellBEq : PyCell → PyCell → Bool
  | .pcNone, .pcNone => true
  | .pcStr a, .pcStr b => a = b
  | _, _ => false

/-- A numeric cell as read from a CSV row: `None`, a float (possibly NaN /
infinite), or an unparsed string. -/
inductive NumCell where
  | ncNone : NumCell
  | ncF : PyF → NumCell
  | ncStr : List Char → NumCell
deriving DecidableEq

/-- `float(x)` with `TypeError` / `ValueError` modelled as `none`. -/
def coerceFloat : NumCell → Option PyF
  | .ncNone => none
  | .ncF f => some f
  | .ncStr s => pyFloatOfStr s

/-- Decimal digit string of a natural number. -/
def natRepr (n : Nat) : List Char := Nat.toDigits 10 n

/-- Strip all factors `p` from `n` (fuelled; `fuel = n` is always enough). -/
def stripFac (p : Nat) : Nat → Nat → Nat
  | 0, n => n
  | fuel + 1, n => if n % p = 0 && n ≠ 0 then stripFac p fuel (n / p) else n

/-- Python `str(f)` for a float.  Exact for NaN, infinities, integral values
and values with a terminating decimal expansion (every actual binary float
has one); other rationals — which cannot arise from Python data — are
rendered as `num/den`. -/
def pyfRepr : PyF → List Char
  | .nan => ls ("nan")
  | .inf true => ls ("-inf")
  | .inf false => ls ("inf")
  | .fin q =>
    let sign : List Char := if q < 0 then ['-'] else []
    let n := q.num.natAbs
    let d := q.den
    if d = 1 then sign ++ natRepr n ++ ls (".0")
    else if stripFac 5 d (stripFac 2 d d) = 1 then
      let a := (Nat.log 2 d) + 1
      let k := max a ((Nat.log 5 d) + 1)
      let whole := n / d
      let fracScaled := (n % d) * 10 ^ k / d
      let fracDigits := natRepr fracScaled
      let padded := List.replicate (k - fracDigits.length) '0' ++ fracDigits
      let trimmed := (padded.reverse.dropWhile (fun c => c = '0')).reverse
      sign ++ natRepr whole ++ '.' :: (if trimmed.isEmpty then [('0')] else trimmed)
    else sign ++ natRepr n ++ '/' :: natRepr d

/-- Python `str(x)` on a numeric cell. -/
def numStr : NumCell → List Char
  | .ncNone => ls ("None")
  | .ncF f => pyfRepr f
  | .ncStr s => s

/-- The standardized trade record built by `build_standard_record` (the
display-only `Win_Rate_Display` field and the `Raw_Data` passthrough payload
are not modelled). -/
structure Record where
  Symbol : PyCell
  Signal_Type : PyCell
  Signal_Date : PyCell
  Signal_Price : NumCell
  Win_Rate : Option PyF
  Number_Of_Trades : Option PyF
  Today_Price : NumCell
  Today_vs_Signal_Pct : Option PyF
  Today_vs_Signal_Pct_Signed : Option PyF
  Exit_Signal_Raw : PyCell
  Exit_Date : PyCell
  Exit_Price : Option PyF
  Function : PyCell
  Interval : PyCell
  PE_Ratio : Option PyF
  Industry_PE : Option PyF
  Last_Quarter_Profit : Option PyF
  Last_Year_Same_Quarter_Profit : Option PyF
  Strategy_CAGR : Option PyF
  Strategy_Sharpe : Option PyF
  TrendPulse_Start_End : PyCell
  TrendPulse_Start_Price : Option PyF
  TrendPulse_End_Price : Option PyF
  Dedup_Key : PyCell
deriving DecidableEq

/-- Result of `parse_signal_column`. -/
structure SignalInfo where
  Symbol : Option (List Char)
  Signal_Type : Option (List Char)
  Signal_Date : Option (List Char)
  Signal_Price : Option ℚ
deriving DecidableEq

/-- `entry_exit_fetcher.parse_signal_column`.  The `Except` error models the
uncaught `ValueError` from `float(price_match.group(1))` on a token such as
`"1.2.3"`. -/
def parse_signal_column (value : PyCell) : Except Unit SignalInfo :=
  match value with
  | .pcStr s =>
    let parts := (splitComma s).map stripL
    if parts.length < 3 then .ok ⟨none, none, none, none⟩
    else
      let symbol := parts.getD 0 []
      let signal_type := parts.getD 1 []
      let date_price_part := stripL (joinChar ',' (parts.drop 2))
      let date_match := findISODate date_price_part
      match findPriceTok date_price_part with
      | some tok =>
        match pyFloatTok tok with
        | some q => .ok ⟨some symbol, some signal_type, date_match, some q⟩
        | none => .error ()
      | none => .ok ⟨some symbol, some signal_type, date_match, none⟩
  | _ => .ok ⟨none, none, none, none⟩

/-- `entry_exit_fetcher.parse_win_rate_and_trades`: the `float` call is inside
`try/except ValueError`, so this parser is total. -/
def parse_win_rate_and_trades (value : PyCell) : Option PyF × Option Nat :=
  match value with
  | .pcStr s =>
    let parts := (splitComma s).map stripL
    if parts.length < 3 then (none, none)
    else
      let win_rate_str := stripL ((parts.getD 0 []).filter (fun c => c ≠ '%'))
      let win_rate := pyFloatOfStr win_rate_str
      let num_trades := findDigitRun (parts.getLastD [])
      (win_rate, num_trades)
  | _ => (none, none)

/-- `float` of an optional regex token; `Except` error = uncaught `ValueError`. -/
def tokFloatE : Option (List Char) → Except Unit (Option ℚ)
  | none => .ok none
  | some t =>
    match pyFloatTok t with
    | some q => .ok (some q)
    | none => .error ()

/-- `entry_exit_fetcher.parse_today_vs_signal`: returns
`(today_price, pct_diff, signed_pct)`; the two `float` calls can raise. -/
def parse_today_vs_signal (value : PyCell) :
    Except Unit (Option ℚ × Option ℚ × Option ℚ) :=
  match value with
  | .pcStr s => do
    let today_price ← tokFloatE (findPriceTok s)
    let signed_pct ← tokFloatE (findPctTok s)
    .ok (today_price, signed_pct.map (fun q => |q|), signed_pct)
  | _ => .ok (none, none, none)

/-- `entry_exit_fetcher.parse_trendpulse_start_end`: first two `Price:` matches
(non-overlapping, as `re.findall`); `float` failures are caught here. -/
def parse_trendpulse_start_end (value : PyCell) : Option ℚ × Option ℚ :=
  match value with
  | .pcStr s =>
    if (stripL s).isEmpty then (none, none)
    else
      match findPriceTokRem s with
      | none => (none, none)
      | some (t1, rem) =>
        match findPriceTokRem rem with
        | none => (none, none)
        | some (t2, _) =>
          match pyFloatTok t1, pyFloatTok t2 with
          | some a, some b => (some a, some b)
          | _, _ => (none, none)
  | _ => (none, none)

/-- `entry_exit_fetcher.parse_interval`: text before the first comma. -/
def parse_interval (value : PyCell) : List Char :=
  match value with
  | .pcStr s => stripL ((splitComma s).getD 0 [])
  | _ => []

/-- Normalisation used by `entry_exit_fetcher.get_trade_dedup_key_from_record`
(and `all_signals_fetcher` / `page_functions.monitored_signals`):
`"SHORT" if "SHORT" in val.upper() else "LONG"`. -/
def normTypeUpper (val : List Char) : List Char :=
  if containsSub (ls ("SHORT")) (upperL val) then ls ("SHORT") else ls ("LONG")

/-- `entry_exit_fetcher.get_trade_dedup_key_from_record`: joins the stripped
`TRADE_DEDUP_COLUMNS` values with `|`, normalising `Signal_Type` to
`SHORT`/`LONG`. -/
def get_trade_dedup_key_from_record (r : Record) : List Char :=
  joinChar '|'
    [ stripL (pyStr r.Function),
      stripL (pyStr r.Symbol),
      stripL (pyStr r.Signal_Date),
      normTypeUpper (stripL (pyStr r.Signal_Type)),
      stripL (pyStr r.Interval) ]

/-- One raw Distance/Trendline CSV row, restricted to the columns that
`build_standard_record` reads. -/
structure RawRow where
  signal_col : PyCell
  winrate_col : PyCell
  today_col : PyCell
  exit_col : PyCell
  interval_col : PyCell
  trendpulse_col : PyCell
  pe_ratio_col : NumCell
  industry_pe_col : NumCell
  last_q_col : NumCell
  last_year_q_col : NumCell
  strategy_cagr_col : NumCell
  strategy_sharpe_col : NumCell
deriving DecidableEq

/-- `entry_exit_fetcher.build_standard_record`.  The `Except` error models an
uncaught `ValueError` escaping from one of the inner `float` calls. -/
def build_standard_record (row : RawRow) (function_name : List Char) :
    Except Unit Record := do
  let si ← parse_signal_column row.signal_col
  let (win_rate, num_trades) := parse_win_rate_and_trades row.winrate_col
  let (today_price, today_pct_diff, signed_pct) ← parse_today_vs_signal row.today_col
  let pe_ratio := coerceFloat row.pe_ratio_col
  let industry_pe := coerceFloat row.industry_pe_col
  let last_q_profit := coerceFloat row.last_q_col
  let last_year_q_profit := coerceFloat row.last_year_q_col
  let strategy_cagr :=
    if row.strategy_cagr_col = .ncNone || row.strategy_cagr_col = .ncStr [] then none
    else pyFloatOfStr ((numStr row.strategy_cagr_col).filter (fun c => c ≠ '%'))
  let strategy_sharpe := coerceFloat row.strategy_sharpe_col
  let interval := parse_interval row.interval_col
  let (start_price, end_price) := parse_trendpulse_start_end row.trendpulse_col
  let exitPair ←
    match row.exit_col with
    | .pcStr s =>
      if s ≠ [] && !(containsSub (ls ("No Exit Yet")) s) then do
        let p ← tokFloatE (findPriceTok s)
        Except.ok ((findISODate s).elim PyCell.pcNone PyCell.pcStr,
                   p.map PyF.fin)
      else Except.ok (PyCell.pcNone, (none : Option PyF))
    | _ => Except.ok (PyCell.pcNone, (none : Option PyF))
  let base : Record :=
    { Symbol := si.Symbol.elim .pcNone .pcStr
      Signal_Type := si.Signal_Type.elim .pcNone .pcStr
      Signal_Date := si.Signal_Date.elim .pcNone .pcStr
      Signal_Price := si.Signal_Price.elim .ncNone (fun q => .ncF (.fin q))
      Win_Rate := win_rate
      Number_Of_Trades := num_trades.map (fun n => .fin (n : ℚ))
      Today_Price := today_price.elim .ncNone (fun q => .ncF (.fin q))
      Today_vs_Signal_Pct := today_pct_diff.map PyF.fin
      Today_vs_Signal_Pct_Signed := signed_pct.map PyF.fin
      Exit_Signal_Raw := row.exit_col
      Exit_Date := exitPair.1
      Exit_Price := exitPair.2
      Function := .pcStr function_name
      Interval := .pcStr interval
      PE_Ratio := pe_ratio
      Industry_PE := industry_pe
      Last_Quarter_Profit := last_q_profit
      Last_Year_Same_Quarter_Profit := last_year_q_profit
      Strategy_CAGR := strategy_cagr
      Strategy_Sharpe := strategy_sharpe
      TrendPulse_Start_End := row.trendpulse_col
      TrendPulse_Start_Price := start_price.map PyF.fin
      TrendPulse_End_Price := end_price.map PyF.fin
      Dedup_Key := .pcNone }
  return { base with Dedup_Key := .pcStr (get_trade_dedup_key_from_record base) }

/-- `entry_exit_fetcher.entry_conditions`.  `none` models an uncaught
exception; the only candidate is a `ZeroDivisionError` at the percentage
computation (shown unreachable below). -/
def entry_conditions (record : Record) : Option Bool :=
  -- Long only
  if upperL (stripL (pyStr record.Signal_Type)) ≠ ls ("LONG") then some false
  else
    -- Win rate & number of trades
    match record.Win_Rate, record.Number_Of_Trades with
    | none, _ => some false
    | _, none => some false
    | some win_rate, some num_trades =>
      if pyfLe win_rate (.fin 80) then some false
      else if pyfLe num_trades (.fin 6) then some false
      else
        -- Exit signal must be "No Exit Yet"
        if !(containsSub (ls ("no exit yet")) (lowerL (stripL (pyStr record.Exit_Signal_Raw)))) then
          some false
        else
          -- Today vs signal price band (signed percentage)
          match record.Today_Price, record.Signal_Price with
          | .ncNone, _ => some false
          | _, .ncNone => some false
          | tp, sp =>
            match coerceFloat tp, coerceFloat sp with
            | some price_now, some signal_price =>
              if pyfLe signal_price (.fin 0) then some false
              else
                match pyfDiv (pyfSub price_now signal_price) signal_price with
                | none => none
                | some d =>
                  let pct_diff := pyfMul d (.fin 100)
                  if pyfGe pct_diff (.fin 1) || pyfLe pct_diff (.fin (-3)) then some false
                  else
                    -- PE conditions
                    match record.PE_Ratio, record.Industry_PE with
                    | none, _ => some false
                    | _, none => some false
                    | some pe_ratio, some industry_pe =>
                      if !(pyfGt industry_pe pe_ratio) then some false
                      else if !(pyfLt pe_ratio (.fin 50)) then some false
                      else
                        -- Profit condition
                        match record.Last_Quarter_Profit,
                              record.Last_Year_Same_Quarter_Profit with
                        | none, _ => some false
                        | _, none => some false
                        | some last_q, some last_year_q =>
                          if !(pyfGt last_q (pyfMul (.fin (1/2)) last_year_q)) then some false
                          else
                            -- Trendline-specific TrendPulse condition
                            if lowerL (pyStr record.Function) = ls ("trendline") then
                              match record.TrendPulse_Start_Price,
                                    record.TrendPulse_End_Price with
                              | none, _ => some false
                              | _, none => some false
                              | some start_price, some end_price =>
                                if !(pyfGt start_price end_price) then some false
                                else some true
                            else some true
            | _, _ => some false

/-- `y` is a leap year (proleptic Gregorian). -/
def isLeap (y : Nat) : Bool := y % 4 = 0 && (y % 100 ≠ 0 || y % 400 = 0)

def daysInMonth (y m : Nat) : Nat :=
  if m = 2 then (if isLeap y then 29 else 28)
  else if m = 4 || m = 6 || m = 9 || m = 11 then 30
  else 31

/-- Day count of a civil date (days since 0000-03-01); only differences are
used, matching `(a - b).days` on Python `date`s. -/
def daysFromCivil (y m d : Nat) : Nat :=
  let y2 := y - (if m ≤ 2 then 1 else 0)
  let era := y2 / 400
  let yoe := y2 % 400
  let mp := if m > 2 then m - 3 else m + 9
  let doy := (153 * mp + 2) / 5 + d - 1
  let doe := yoe * 365 + yoe / 4 - yoe / 100 + doy
  era * 146097 + doe

/-- `strptime` month/day sub-pattern `1[0-2]|0[1-9]|[1-9]` (resp. the day
variant): a two-digit value in `[lo, hi]`, else a single digit `1..9`. -/
def parse2or1 (hi : Nat) : List Char → Option (Nat × List Char)
  | x :: y :: r =>
    if isDigitC x && isDigitC y && 1 ≤ 10 * digitVal x + digitVal y &&
       10 * digitVal x + digitVal y ≤ hi then
      some (10 * digitVal x + digitVal y, r)
    else if isDigitC x && 1 ≤ digitVal x then some (digitVal x, y :: r)
    else none
  | [x] => if isDigitC x && 1 ≤ digitVal x then some (digitVal x, []) else none
  | [] => none

/-- `datetime.strptime(s, "%Y-%m-%d").date()` followed by `.toordinal()`-style
conversion: exactly four year digits, 1-2 digit month and day, full-string
match, and `datetime` range validation.  `none` models `ValueError`. -/
def strptimeYMD (l : List Char) : Option ℤ :=
  match l with
  | a :: b :: c :: d :: '-' :: rest =>
    if isDigitC a && isDigitC b && isDigitC c && isDigitC d then
      let y := digitsVal [a, b, c, d]
      match parse2or1 12 rest with
      | some (m, '-' :: rest2) =>
        match parse2or1 31 rest2 with
        | some (day, []) =>
          if 1 ≤ y && 1 ≤ day && day ≤ daysInMonth y m then
            some (daysFromCivil y m day : ℤ)
          else none
        | _ => none
      | _ => none
    else none
  | _ => none

/-- `entry_exit_fetcher.exit_conditions`; `fetchOrd` is the day number of the
`fetch_date` argument (same scale as `strptimeYMD`). -/
def exit_conditions (record : Record) (fetchOrd : ℤ) : Bool :=
  -- Long only
  if upperL (stripL (pyStr record.Signal_Type)) ≠ ls ("LONG") then false
  else
    match record.Win_Rate, record.Number_Of_Trades with
    | none, _ => false
    | _, none => false
    | some win_rate, some num_trades =>
      if pyfLe win_rate (.fin 80) then false
      else if pyfLe num_trades (.fin 6) then false
      else
        -- Exit signal must be present (not "No Exit Yet")
        let exit_raw := lowerL (stripL (pyStr record.Exit_Signal_Raw))
        if exit_raw.isEmpty || containsSub (ls ("no exit yet")) exit_raw then false
        else
          -- Exit_Date within last 3 days relative to fetch_date
          if cellFalsy record.Exit_Date then false
          else
            match strptimeYMD ((stripL (pyStr record.Exit_Date)).take 10) with
            | none => false
            | some exitOrd =>
              if fetchOrd - exitOrd > 3 then false
              else
                -- Require Exit_Price to be present
                match record.Exit_Price with
                | none => false
                | some _ =>
                  match record.PE_Ratio, record.Industry_PE with
                  | none, _ => false
                  | _, none => false
                  | some pe_ratio, some industry_pe =>
                    if !(pyfGt industry_pe pe_ratio) then false
                    else if !(pyfLt pe_ratio (.fin 50)) then false
                    else
                      match record.Last_Quarter_Profit,
                            record.Last_Year_Same_Quarter_Profit with
                      | none, _ => false
                      | _, none => false
                      | some last_q, some last_year_q =>
                        if !(pyfGt last_q (pyfMul (.fin (1/2)) last_year_q)) then false
                        else
                          if lowerL (pyStr record.Function) = ls ("trendline") then
                            match record.TrendPulse_Start_Price,
                                  record.TrendPulse_End_Price with
                            | none, _ => false
                            | _, none => false
                            | some start_price, some end_price =>
                              if !(pyfGt start_price end_price) then false
                              else true
                          else true

/-- `entry_exit_fetcher.main`, lines ensuring every record has a `Dedup_Key`:
a falsy (`None` / empty) key is replaced by the computed one. -/
def ensureKeys (l : List Record) : List Record :=
  l.map (fun r =>
    if cellFalsy r.Dedup_Key then
      { r with Dedup_Key := .pcStr (get_trade_dedup_key_from_record r) }
    else r)

/-- `entry_exit_fetcher.main`, existing-row pass: each persisted
potential-entry row gets its `Dedup_Key` recomputed and assigned. -/
def withKeys (l : List Record) : List Record :=
  l.map (fun r => { r with Dedup_Key := .pcStr (get_trade_dedup_key_from_record r) })

/-- Membership of a cell in a key set (Python `key in existing_keys`). -/
def memCell (k : PyCell) (ks : List PyCell) : Bool := ks.any (fun x => cellBEq k x)

/-- `entry_exit_fetcher.main`, new-entry selection loop: keep records passing
`entry_conditions` whose key is not already seen, accumulating seen keys.
`none` propagates an exception raised by `entry_conditions`. -/
def selectNewEntries : List Record → List PyCell → Option (List Record)
  | [], _ => some []
  | r :: rs, ks =>
    match entry_conditions r with
    | none => none
    | some false => selectNewEntries rs ks
    | some true =>
      if memCell r.Dedup_Key ks then selectNewEntries rs ks
      else (selectNewEntries rs (r.Dedup_Key :: ks)).map (fun t => r :: t)

/-- The record list written to `potential_entry.csv` by
`entry_exit_fetcher.main`: `none` models the `FileNotFoundError` that `main`
raises when the loaded `all_signals.csv` snapshot is empty or missing (so no
output is produced at all); otherwise the persisted rows (keys recomputed)
followed by the newly qualifying records with unseen keys. -/
def mainEntryOutput (allSignals existing : List Record) : Option (List Record) :=
  if allSignals = [] then none
  else
    let ex := withKeys existing
    (selectNewEntries (ensureKeys allSignals) (ex.map (fun r => r.Dedup_Key))).map
      (fun ns => ex ++ ns)

/-- `entry_exit_fetcher.main`, exit loop: collect records passing
`exit_conditions`. -/
def selectExits : List Record → ℤ → List Record
  | [], _ => []
  | r :: rs, fd =>
    if exit_conditions r fd then r :: selectExits rs fd else selectExits rs fd

/-- The record list written to `potential_exit.csv` by
`entry_exit_fetcher.main`: `none` models the same empty-snapshot
`FileNotFoundError`, which fires before either output is written.  (The only
other abort, an exception from `entry_conditions` during the entry loop, is
provably unreachable — see the entry-safety theorem.) -/
def mainExitOutput (allSignals : List Record) (fetchOrd : ℤ) : Option (List Record) :=
  if allSignals = [] then none
  else some (selectExits (ensureKeys allSignals) fetchOrd)

/-- The in-memory ledger of `all_signals_fetcher.main`: an insertion-ordered
key → record mapping (Python dict). -/
def Ledger := List (PyCell × Record)

/-- Python dict assignment `d[k] = v`: replace the value at the first matching
key in place, else append. -/
def dictInsert : List (PyCell × Record) → PyCell → Record → List (PyCell × Record)
  | [], k, v => [(k, v)]
  | (k1, v1) :: rest, k, v =>
    if cellBEq k1 k then (k1, v) :: rest
    else (k1, v1) :: dictInsert rest k v

/-- `all_signals_fetcher.main`, merge loop: for each incoming record,
`merged_by_key[rec["Dedup_Key"]] = rec`. -/
def mergeRecords (ledger : List (PyCell × Record)) (incoming : List Record) :
    List (PyCell × Record) :=
  incoming.foldl (fun m r => dictInsert m r.Dedup_Key r) ledger

/-! ### Specification-side predicates (for refinement comparison)

Boolean forms of the individual entry/exit filters, following the spec's
wording; `exit_conditions` is compared against conjunctions of these. -/

/-- Entry/exit filter 1: `Signal_Type == LONG` after strip/upper. -/
def isLongB (r : Record) : Bool :=
  upperL (stripL (pyStr r.Signal_Type)) = ls ("LONG")

/-- Filter 2: `Win_Rate` and `Number_Of_Trades` present and the code's
rejection comparisons (`<= 80`, `<= 6`) fail. -/
def winTradesB (r : Record) : Bool :=
  match r.Win_Rate, r.Number_Of_Trades with
  | some w, some n => !(pyfLe w (.fin 80)) && !(pyfLe n (.fin 6))
  | _, _ => false

/-- CLOSED status: `Exit_Signal_Raw` non-empty and lacking the sentinel. -/
def closedRawB (r : Record) : Bool :=
  let e := lowerL (stripL (pyStr r.Exit_Signal_Raw))
  !e.isEmpty && !(containsSub (ls ("no exit yet")) e)

/-- Exit recency: `Exit_Date` truthy, parseable, and at most 3 days before
the fetch date. -/
def exitRecentB (r : Record) (fetchOrd : ℤ) : Bool :=
  !(cellFalsy r.Exit_Date) &&
    match strptimeYMD ((stripL (pyStr r.Exit_Date)).take 10) with
    | none => false
    | some e => fetchOrd - e ≤ 3

/-- `Exit_Price` present. -/
def exitPriceB (r : Record) : Bool := r.Exit_Price.isSome

/-- Filter 5: `Industry_PE > PE_Ratio` and `PE_Ratio < 50`. -/
def peB (r : Record) : Bool :=
  match r.PE_Ratio, r.Industry_PE with
  | some pe, some ipe => pyfGt ipe pe && pyfLt pe (.fin 50)
  | _, _ => false

/-- Filter 6: `Last_Quarter_Profit > 0.5 * Last_Year_Same_Quarter_Profit`. -/
def profitB (r : Record) : Bool :=
  match r.Last_Quarter_Profit, r.Last_Year_Same_Quarter_Profit with
  | some lq, some lyq => pyfGt lq (pyfMul (.fin (1/2)) lyq)
  | _, _ => false

/-- Filter 7: for Trendline records, `TrendPulse_Start_Price >
TrendPulse_End_Price`. -/
def trendB (r : Record) : Bool :=
  if lowerL (pyStr r.Function) = ls ("trendline") then
    match r.TrendPulse_Start_Price, r.TrendPulse_End_Price with
    | some sp, some ep => pyfGt sp ep
    | _, _ => false
  else true

/-- What `exit_conditions` actually implements, as a conjunction: LONG-only
plus filters 2, 5, 6, 7 plus CLOSED plus the recency window plus a present
`Exit_Price`. -/
def amendedExitSpecB (r : Record) (fetchOrd : ℤ) : Bool :=
  isLongB r && winTradesB r && closedRawB r && exitRecentB r fetchOrd &&
    exitPriceB r && peB r && profitB r && trendB r

/-- The claim's version of exit eligibility: exactly filters 2, 5, 6, 7 plus
CLOSED plus the recency window — no `Signal_Type` restriction and no
`Exit_Price` requirement. -/
def claimExitSpecB (r : Record) (fetchOrd : ℤ) : Bool :=
  winTradesB r && closedRawB r && exitRecentB r fetchOrd && peB r &&
    profitB r && trendB r

/-- OPEN status: `Exit_Signal_Raw` contains the sentinel (case-insensitive). -/
def openRawB (r : Record) : Bool :=
  containsSub (ls ("no exit yet")) (lowerL (stripL (pyStr r.Exit_Signal_Raw)))

/-- Entry filter 4, the asymmetric price band, as a Boolean: both prices
coerce to floats, the signal price is not `<= 0`, and the signed percentage
difference triggers neither the `>= +1` nor the `<= -3` rejection.  (The
code's redundant `None` guard is absorbed: `coerceFloat` of a missing value
is `none`.) -/
def priceBandB (r : Record) : Bool :=
  match coerceFloat r.Today_Price, coerceFloat r.Signal_Price with
  | some price_now, some signal_price =>
    !(pyfLe signal_price (.fin 0)) &&
      (match pyfDiv (pyfSub price_now signal_price) signal_price with
       | none => false
       | some d =>
         !(pyfGe (pyfMul d (.fin 100)) (.fin 1) || pyfLe (pyfMul d (.fin 100)) (.fin (-3))))
  | _, _ => false

/-- What `entry_conditions` implements, as a conjunction of the seven
filters. -/
def entrySpecB (r : Record) : Bool :=
  isLongB r && winTradesB r && openRawB r && priceBandB r && peB r && profitB r && trendB r

/-- The hypothesis of the entry-safety claim: `Signal_Price` or `Today_Price`
missing or not float-coercible, or `Signal_Price` coercing to a
non-positive rational. -/
def badPriceInput (r : Record) : Prop :=
  r.Signal_Price = .ncNone ∨ r.Today_Price = .ncNone ∨
  (∃ s, r.Signal_Price = .ncStr s ∧ pyFloatOfStr s = none) ∨
  (∃ s, r.Today_Price = .ncStr s ∧ pyFloatOfStr s = none) ∨
  (∃ q, coerceFloat r.Signal_Price = some (.fin q) ∧ q ≤ 0)

/-! ### Dictionary bookkeeping used by the merge proofs -/

/-- Is a cell a proper string key? -/
def isStrKey : PyCell → Bool
  | .pcStr _ => true
  | _ => false

/-- First-match lookup in an insertion-ordered dict. -/
def lookupL : List (PyCell × Record) → PyCell → Option Record
  | [], _ => none
  | (k1, v) :: t, k => if cellBEq k1 k then some v else lookupL t k

/-- Key membership in a dict (stored key tested against `k`). -/
def keyInL (L : List (PyCell × Record)) (k : PyCell) : Bool :=
  L.any (fun p => cellBEq p.1 k)

/-- Key membership among incoming records. -/
def keyIn (k : PyCell) (xs : List Record) : Bool :=
  xs.any (fun r => cellBEq r.Dedup_Key k)

/-- The record of the last incoming occurrence of key `k`. -/
def lastValR : List Record → PyCell → Option Record
  | [], _ => none
  | r :: t, k =>
    match lastValR t k with
    | some v => some v
    | none => if cellBEq r.Dedup_Key k then some r else none

/-- All stored keys pairwise distinct (the Python dict invariant). -/
def uniqKeysB : List (PyCell × Record) → Bool
  | [] => true
  | p :: t => !(keyInL t p.1) && uniqKeysB t

/-- All incoming records carry proper string keys. -/
def strKeyed (xs : List Record) : Bool := xs.all (fun r => isStrKey r.Dedup_Key)

/-! ### Concrete fixtures used by witnesses and counterexamples -/

/-- A record with every field missing. -/
def emptyRecord : Record :=
  { Symbol := .pcNone, Signal_Type := .pcNone, Signal_Date := .pcNone
    Signal_Price := .ncNone, Win_Rate := none, Number_Of_Trades := none
    Today_Price := .ncNone, Today_vs_Signal_Pct := none
    Today_vs_Signal_Pct_Signed := none, Exit_Signal_Raw := .pcNone
    Exit_Date := .pcNone, Exit_Price := none, Function := .pcNone
    Interval := .pcNone, PE_Ratio := none, Industry_PE := none
    Last_Quarter_Profit := none, Last_Year_Same_Quarter_Profit := none
    Strategy_CAGR := none, Strategy_Sharpe := none
    TrendPulse_Start_End := .pcNone, TrendPulse_Start_Price := none
    TrendPulse_End_Price := none, Dedup_Key := .pcNone }

/-- The spec's end-to-end entry example (§8), as a standardized record. -/
def goodEntryRec : Record :=
  { emptyRecord with
    Symbol := .pcStr (ls ("X"))
    Signal_Type := .pcStr (ls ("LONG"))
    Signal_Date := .pcStr (ls ("2026-02-09"))
    Signal_Price := .ncF (.fin 100)
    Win_Rate := some (.fin (923/10))
    Number_Of_Trades := some (.fin 13)
    Today_Price := .ncF (.fin (1009/10))
    Exit_Signal_Raw := .pcStr (ls ("No Exit Yet"))
    Function := .pcStr (ls ("Trendline"))
    Interval := .pcStr (ls ("Daily"))
    PE_Ratio := some (.fin 15)
    Industry_PE := some (.fin 20)
    Last_Quarter_Profit := some (.fin 120)
    Last_Year_Same_Quarter_Profit := some (.fin 200)
    TrendPulse_Start_Price := some (.fin 50)
    TrendPulse_End_Price := some (.fin 40) }

/-- A raw row whose exit cell contains the sentinel in lower case together
with a parseable date and price. -/
def c4row : RawRow :=
  { signal_col := .pcStr (ls (""))
    winrate_col := .pcStr (ls (""))
    today_col := .pcStr (ls (""))
    exit_col := .pcStr (ls ("no exit yet 2026-01-01 (Price: 5)"))
    interval_col := .pcStr (ls (""))
    trendpulse_col := .pcStr (ls (""))
    pe_ratio_col := .ncNone, industry_pe_col := .ncNone
    last_q_col := .ncNone, last_year_q_col := .ncNone
    strategy_cagr_col := .ncNone, strategy_sharpe_col := .ncNone }

/-- Day number of 2026-02-09 (a concrete fetch date). -/
def fdFeb9 : ℤ := (strptimeYMD (ls ("2026-02-09"))).getD 0

/-- A closed (exited) record passing every exit filter except LONG-only. -/
def exitShortRec : Record :=
  { goodEntryRec with
    Signal_Type := .pcStr (ls ("Short"))
    Exit_Signal_Raw := .pcStr (ls ("2026-02-09 (Price: 110.0)"))
    Exit_Date := .pcStr (ls ("2026-02-09"))
    Exit_Price := some (.fin 110)
    Function := .pcStr (ls ("Distance")) }

/-- The LONG variant of `exitShortRec`, passing all exit filters. -/
def exitLongRec : Record := { exitShortRec with Signal_Type := .pcStr (ls ("LONG")) }

/-- Records sharing one dedup key, for the merge witness. -/
def mergeRecA : Record := { emptyRecord with Dedup_Key := .pcStr (ls ("k1")) }

/-- Second record with the same key as `mergeRecA`. -/
def mergeRecB : Record :=
  { emptyRecord with Dedup_Key := .pcStr (ls ("k1")), Win_Rate := some (.fin 1) }

/-- A one-entry starting ledger for the merge witness. -/
def mergeLedger0 : List (PyCell × Record) := [(.pcStr (ls ("k0")), emptyRecord)]

/-- The concrete potential-entry output for the pipeline witness. -/
def wOut : List Record := (mainEntryOutput [goodEntryRec] [emptyRecord]).getD []

/-! ### Theorems -/

/-- C1 (counterexample): on a non-empty ledger snapshot (one qualifying
record, so `main` passes its empty-snapshot guard and really writes output),
the potential-entry output with a previously persisted non-qualifying row
differs both from the recomputed-from-scratch filter of the snapshot and from
the output produced with no persisted rows — persisted potential-entry rows
do influence the result. -/
theorem c1_counterexample :
    mainEntryOutput [goodEntryRec] [emptyRecord] ≠
      some ((ensureKeys [goodEntryRec]).filter (fun r => (entry_conditions r).getD false)) ∧
    mainEntryOutput [goodEntryRec] [emptyRecord] ≠ mainEntryOutput [goodEntryRec] [] := by
  decide

/-- C2 (counterexample): a CLOSED record satisfying exactly filters 2, 5, 6, 7
and the recency window (the claim's exit criterion) is nevertheless rejected
by `exit_conditions`, because the code also applies the LONG-only filter. -/
theorem c2_counterexample :
    claimExitSpecB exitShortRec fdFeb9 = true ∧
    exit_conditions exitShortRec fdFeb9 = false := by
  decide

/-- C4 (counterexample): an `Exit_Signal_Raw` containing the sentinel in lower
case (`"no exit yet ..."`, a case-insensitive match) still gets `Exit_Date` and
`Exit_Price` parsed, because `build_standard_record` checks the sentinel
case-sensitively. -/
theorem c4_counterexample :
    containsSub (lowerL (ls ("No Exit Yet"))) (lowerL (pyStr c4row.exit_col)) = true ∧
    (build_standard_record c4row (ls ("Distance"))).map
        (fun r => (r.Exit_Date, r.Exit_Price)) =
      .ok (.pcStr (ls ("2026-01-01")), some (.fin 5)) := by
  decide

/-- C5 (counterexample): on the claim's own input shape the parser returns the
verbatim second comma part `"Long"`, not the normalised `"LONG"` the claim
states. -/
theorem c5_counterexample :
    parse_signal_column (.pcStr (ls ("HCLTECH.NS, Long, 2026-02-09 (Price: 1597.5)"))) =
      .ok ⟨some (ls ("HCLTECH.NS")), some (ls ("Long")),
           some (ls ("2026-02-09")), some (3195/2)⟩ ∧
    ¬ (ls ("Long") = ls ("LONG")) := by
  decide

/-- C6 (counterexample): `parse_signal_column` can raise: the price regex
matches the token `"1.2.3"`, and `float("1.2.3")` raises an uncaught
`ValueError` (modelled by `.error ()`). -/
theorem c6_counterexample :
    parse_signal_column (.pcStr (ls ("A, B, 2026-01-01 (Price: 1.2.3)"))) = .error () := by
  decide

/-- Splitting a comma-free prefix off at its following comma. -/
theorem splitComma_append (sym rest : List Char) (h : (',') ∉ sym) :
    splitComma (sym ++ ',' :: rest) = sym :: splitComma rest := by
  induction sym with
  | nil => simp [splitComma]
  | cons c cs ih =>
    have hc : ¬(c = ',') := fun e => h (e ▸ List.mem_cons_self c cs)
    have hcs : (',') ∉ cs := fun hm => h (List.mem_cons_of_mem c hm)
    simp only [List.cons_append, splitComma, hc, if_false, List.append_eq]
    rw [ih hcs]

/-- C5 (amended): for every comma-free, whitespace-trimmed symbol, the parser
returns the symbol, the verbatim token `"Long"` (not the normalised `"LONG"`),
the ISO date, and the exact price. -/
theorem c5_parse_shape : ∀ sym : List Char, (',') ∉ sym → stripL sym = sym →
    parse_signal_column (.pcStr (sym ++ ls (", Long, 2026-02-09 (Price: 1597.5)"))) =
      .ok ⟨some sym, some (ls ("Long")), some (ls ("2026-02-09")), some (3195/2)⟩ := by
  intro sym hc hs
  have e1 : ls (", Long, 2026-02-09 (Price: 1597.5)") =
      ',' :: ls (" Long, 2026-02-09 (Price: 1597.5)") := rfl
  have e3 : splitComma (sym ++ ls (", Long, 2026-02-09 (Price: 1597.5)")) =
      sym :: [ls (" Long"), ls (" 2026-02-09 (Price: 1597.5)")] := by
    rw [e1, splitComma_append sym _ hc]
    rfl
  simp only [parse_signal_column]
  rw [e3, List.map_cons, hs]
  rfl

/-- C5 (witness): the claim's own example symbol. -/
theorem c5_witness :
    parse_signal_column
        (.pcStr (ls ("HCLTECH.NS") ++ ls (", Long, 2026-02-09 (Price: 1597.5)"))) =
      .ok ⟨some (ls ("HCLTECH.NS")), some (ls ("Long")),
           some (ls ("2026-02-09")), some (3195/2)⟩ :=
  c5_parse_shape (ls ("HCLTECH.NS")) (by decide) (by decide)

/-- C6 (amended): `parse_signal_column` returns all-null exactly on non-string
input or fewer than three comma parts; with three or more parts `Symbol` and
`Signal_Type` are always set even if the date/price pieces are missing; and
the only way it raises is a `ValueError` from `float` on a matched price token
that is not a valid float. -/
theorem c6_parse_error_localised :
    (∀ v : PyCell, (∀ s, v ≠ .pcStr s) →
       parse_signal_column v = .ok ⟨none, none, none, none⟩) ∧
    (∀ s : List Char, (splitComma s).length < 3 →
       parse_signal_column (.pcStr s) = .ok ⟨none, none, none, none⟩) ∧
    (∀ (s : List Char) (r : SignalInfo), parse_signal_column (.pcStr s) = .ok r →
       3 ≤ (splitComma s).length → r.Symbol.isSome ∧ r.Signal_Type.isSome) ∧
    (∀ s : List Char, parse_signal_column (.pcStr s) = .error () →
       ∃ tok, findPriceTok (stripL (joinChar ','
           (((splitComma s).map stripL).drop 2))) = some tok ∧ pyFloatTok tok = none) := by
  refine ⟨?_, ?_, ?_, ?_⟩
  · intro v h
    cases v with
    | pcNone => rfl
    | pcNan => rfl
    | pcStr s => exact absurd rfl (h s)
  · intro s h
    simp only [parse_signal_column]
    rw [if_pos (by rwa [List.length_map])]
  · intro s r h hlen
    simp only [parse_signal_column] at h
    rw [if_neg (by rw [List.length_map]; omega)] at h
    rcases hfp : findPriceTok (stripL (joinChar ','
        (List.drop 2 (List.map stripL (splitComma s))))) with _ | tok
    · rw [hfp] at h
      dsimp only [] at h
      cases h
      simp
    · rw [hfp] at h
      dsimp only [] at h
      rcases hq : pyFloatTok tok with _ | q
      · rw [hq] at h
        simp at h
      · rw [hq] at h
        dsimp only [] at h
        cases h
        simp
  · intro s h
    simp only [parse_signal_column] at h
    by_cases hlen : (List.map stripL (splitComma s)).length < 3
    · rw [if_pos hlen] at h
      simp at h
    · rw [if_neg hlen] at h
      rcases hfp : findPriceTok (stripL (joinChar ','
          (List.drop 2 (List.map stripL (splitComma s))))) with _ | tok
      · rw [hfp] at h
        simp at h
      · rw [hfp] at h
        dsimp only [] at h
        rcases hq : pyFloatTok tok with _ | q
        · exact ⟨tok, rfl, hq⟩
        · rw [hq] at h
          simp at h

/-- C6 (witness): the four cases at concrete inputs: a NaN cell, a two-part
string, a three-part string with no date/price, and the raising input. -/
theorem c6_witness :
    parse_signal_column .pcNan = .ok ⟨none, none, none, none⟩ ∧
    parse_signal_column (.pcStr (ls ("A,B"))) = .ok ⟨none, none, none, none⟩ ∧
    ((some (ls ("A"))).isSome ∧ (some (ls ("B"))).isSome) ∧
    (∃ tok, findPriceTok (stripL (joinChar ','
        (((splitComma (ls ("A, B, 2026-01-01 (Price: 1.2.3)"))).map stripL).drop 2))) =
          some tok ∧ pyFloatTok tok = none) :=
  ⟨c6_parse_error_localised.1 .pcNan (fun s => by simp),
   c6_parse_error_localised.2.1 (ls ("A,B")) (by decide),
   c6_parse_error_localised.2.2.1 (ls ("A, B, C"))
     ⟨some (ls ("A")), some (ls ("B")), none, none⟩ (by decide) (by decide),
   c6_parse_error_localised.2.2.2 (ls ("A, B, 2026-01-01 (Price: 1.2.3)")) (by decide)⟩

/-- C4 (amended): `build_standard_record` nulls `Exit_Date`/`Exit_Price`
whenever `Exit_Signal_Raw` contains the sentinel `"No Exit Yet"` under
**case-sensitive** matching, or is empty, or is not a string; only otherwise
does it parse them out of `Exit_Signal_Raw` with the date/price regexes. -/
theorem c4_exit_sentinel :
    (∀ (row : RawRow) (fn : List Char) (r : Record) (s : List Char),
       build_standard_record row fn = .ok r → row.exit_col = .pcStr s →
       (containsSub (ls ("No Exit Yet")) s = true ∨ s = []) →
       r.Exit_Date = .pcNone ∧ r.Exit_Price = none) ∧
    (∀ (row : RawRow) (fn : List Char) (r : Record),
       build_standard_record row fn = .ok r → (∀ s, row.exit_col ≠ .pcStr s) →
       r.Exit_Date = .pcNone ∧ r.Exit_Price = none) ∧
    (∀ (row : RawRow) (fn : List Char) (r : Record) (s : List Char),
       build_standard_record row fn = .ok r → row.exit_col = .pcStr s →
       s ≠ [] → containsSub (ls ("No Exit Yet")) s = false →
       r.Exit_Date = (findISODate s).elim .pcNone .pcStr ∧
       (∀ t q, findPriceTok s = some t → pyFloatTok t = some q →
          r.Exit_Price = some (.fin q)) ∧
       (findPriceTok s = none → r.Exit_Price = none)) := by
  refine ⟨?_, ?_, ?_⟩
  · intro row fn r s h hcol hsent
    simp only [build_standard_record, bind, Except.bind] at h
    rcases hsi : parse_signal_column row.signal_col with e | si
    · rw [hsi] at h
      simp at h
    · rw [hsi] at h
      dsimp only [] at h
      rcases ht : parse_today_vs_signal row.today_col with e | trip
      · rw [ht] at h
        simp at h
      · rw [ht] at h
        dsimp only [] at h
        rw [hcol] at h
        have hcond : (decide ¬(s = []) && !(containsSub (ls ("No Exit Yet")) s)) = false := by
          rcases hsent with h1 | h1
          · simp [h1]
          · simp [h1]
        dsimp only [] at h
        rw [hcond] at h
        simp only [Bool.false_eq_true, if_false] at h
        dsimp only [pure, Except.pure] at h
        cases h
        exact ⟨rfl, rfl⟩
  · intro row fn r h hcol
    simp only [build_standard_record, bind, Except.bind] at h
    rcases hsi : parse_signal_column row.signal_col with e | si
    · rw [hsi] at h
      simp at h
    · rw [hsi] at h
      dsimp only [] at h
      rcases ht : parse_today_vs_signal row.today_col with e | trip
      · rw [ht] at h
        simp at h
      · rw [ht] at h
        dsimp only [] at h
        rcases hc : row.exit_col with _ | _ | s
        · rw [hc] at h
          dsimp only [pure, Except.pure] at h
          cases h
          exact ⟨rfl, rfl⟩
        · rw [hc] at h
          dsimp only [pure, Except.pure] at h
          cases h
          exact ⟨rfl, rfl⟩
        · exact absurd hc (hcol s)
  · intro row fn r s h hcol hne hsent
    simp only [build_standard_record, bind, Except.bind] at h
    rcases hsi : parse_signal_column row.signal_col with e | si
    · rw [hsi] at h
      simp at h
    · rw [hsi] at h
      dsimp only [] at h
      rcases ht : parse_today_vs_signal row.today_col with e | trip
      · rw [ht] at h
        simp at h
      · rw [ht] at h
        dsimp only [] at h
        rw [hcol] at h
        have hcond : (decide ¬(s = []) && !(containsSub (ls ("No Exit Yet")) s)) = true := by
          simp [hne, hsent]
        dsimp only [] at h
        rw [hcond] at h
        simp only [if_true] at h
        rcases hpt : tokFloatE (findPriceTok s) with e | p
        · rw [hpt] at h
          simp at h
        · rw [hpt] at h
          dsimp only [pure, Except.pure] at h
          cases h
          refine ⟨rfl, ?_, ?_⟩
          · intro t q hft hq
            have hp : p = some q := by
              rw [hft] at hpt
              unfold tokFloatE at hpt
              dsimp only [] at hpt
              rw [hq] at hpt
              exact (Except.ok.inj hpt).symm
            rw [hp]
            rfl
          · intro hft
            have hp : p = none := by
              rw [hft] at hpt
              unfold tokFloatE at hpt
              dsimp only [] at hpt
              exact (Except.ok.inj hpt).symm
            rw [hp]
            rfl

/-- C4 (witness): a row whose exit cell is exactly the sentinel is nulled; a
closed exit cell has its date and price parsed. -/
theorem c4_witness :
    ∀ r1 r2 : Record,
      build_standard_record { c4row with exit_col := .pcStr (ls ("No Exit Yet")) }
          (ls ("Distance")) = .ok r1 →
      build_standard_record { c4row with exit_col := .pcStr (ls ("2026-01-01 (Price: 5)")) }
          (ls ("Distance")) = .ok r2 →
      (r1.Exit_Date = .pcNone ∧ r1.Exit_Price = none) ∧
      (r2.Exit_Date = (findISODate (ls ("2026-01-01 (Price: 5)"))).elim .pcNone .pcStr ∧
        r2.Exit_Price = some (.fin 5)) := by
  intro r1 r2 h1 h2
  refine ⟨c4_exit_sentinel.1 _ _ r1 _ h1 rfl (Or.inl (by decide)), ?_, ?_⟩
  · exact (c4_exit_sentinel.2.2 _ _ r2 _ h2 rfl (by decide) (by decide)).1
  · exact (c4_exit_sentinel.2.2 _ _ r2 _ h2 rfl (by decide) (by decide)).2.1
      (ls ("5")) 5 (by decide) (by decide)

/-- Rejecting `if`s translate to conjunction with the negated condition. -/
theorem ite_prop_false (p : Prop) [Decidable p] (b : Bool) :
    (if p then false else b) = (!(decide p) && b) := by
  by_cases h : p <;> simp [h]

theorem int_not_lt_decide (x y : ℤ) : (!(decide (x < y))) = decide (y ≤ x) := by
  by_cases h : x < y
  · simp [h, show ¬(y ≤ x) by omega]
  · simp [h, show y ≤ x by omega]

theorem list_isEmpty_decide {a : Type} [DecidableEq a] (l : List a) :
    l.isEmpty = decide (l = []) := by
  cases l <;> simp

set_option maxHeartbeats 1000000 in
/-- The sequential early-return structure of `exit_conditions` is equivalent
to the conjunction of the individual filters. -/
theorem exit_conditions_eq_spec (r : Record) (fd : ℤ) :
    exit_conditions r fd = amendedExitSpecB r fd := by
  unfold exit_conditions amendedExitSpecB isLongB winTradesB closedRawB
    exitRecentB exitPriceB peB profitB trendB
  cases hw : r.Win_Rate <;> cases hn : r.Number_Of_Trades <;>
    cases hp : r.Exit_Price <;> cases hpe : r.PE_Ratio <;> cases hie : r.Industry_PE <;>
    cases hlq : r.Last_Quarter_Profit <;> cases hly : r.Last_Year_Same_Quarter_Profit <;>
    cases hsp : r.TrendPulse_Start_Price <;> cases hte : r.TrendPulse_End_Price <;>
    cases hds : strptimeYMD ((stripL (pyStr r.Exit_Date)).take 10) <;>
    simp only [ite_prop_false, int_not_lt_decide, decide_not, Bool.not_not,
      decide_eq_true_eq, Bool.not_true, Bool.not_false, Bool.and_true, Bool.true_and,
      Option.isSome_none, Option.isSome_some,
      Bool.and_false, Bool.false_and, Bool.and_assoc] <;>
    simp [Bool.and_assoc, Bool.not_or, list_isEmpty_decide]

/-- C2 (amended): `exit_conditions` accepts a record iff it passes the
LONG-only filter (entry rule 1), entry filters 2, 5, 6 and 7, has CLOSED
status, satisfies the `Exit_Date` recency window, **and** has a present
`Exit_Price`; no price-band filter (entry rule 4) is applied to exits. -/
theorem c2_exit_characterisation :
    ∀ (r : Record) (fd : ℤ), exit_conditions r fd = amendedExitSpecB r fd :=
  exit_conditions_eq_spec

/-- C9: for a record passing all other exit filters with a parsed `Exit_Date`,
`exit_conditions` accepts exactly when the fetch date is at most
`exit_recency_days = 3` days after the exit date; a gap of exactly 3 days is
accepted, a larger gap rejected. -/
theorem c9_exit_recency :
    ∀ (r : Record) (fd e : ℤ),
      isLongB r = true → winTradesB r = true → closedRawB r = true →
      cellFalsy r.Exit_Date = false →
      strptimeYMD ((stripL (pyStr r.Exit_Date)).take 10) = some e →
      exitPriceB r = true → peB r = true → profitB r = true → trendB r = true →
      (exit_conditions r fd = true ↔ fd - e ≤ 3) := by
  intro r fd e h1 h2 h3 h4 h5 h6 h7 h8 h9
  rw [exit_conditions_eq_spec]
  simp [amendedExitSpecB, exitRecentB, h1, h2, h3, h4, h5, h6, h7, h8, h9]

/-- C9 (witness): a concrete closed record with `Exit_Date = 2026-02-09` is
accepted at a fetch date 3 days later and rejected at 4 days. -/
theorem c9_witness :
    (exit_conditions exitLongRec (fdFeb9 + 3) = true ↔ fdFeb9 + 3 - fdFeb9 ≤ 3) ∧
    (exit_conditions exitLongRec (fdFeb9 + 4) = true ↔ fdFeb9 + 4 - fdFeb9 ≤ 3) :=
  ⟨c9_exit_recency exitLongRec (fdFeb9 + 3) fdFeb9 (by decide) (by decide) (by decide)
      (by decide) (by decide) (by decide) (by decide) (by decide) (by decide),
   c9_exit_recency exitLongRec (fdFeb9 + 4) fdFeb9 (by decide) (by decide) (by decide)
      (by decide) (by decide) (by decide) (by decide) (by decide) (by decide)⟩

/-- A float division errors exactly on a zero divisor. -/
theorem pyfDiv_eq_none_iff (a b : PyF) : pyfDiv a b = none ↔ b = .fin 0 := by
  cases b with
  | fin q =>
    by_cases h : q = 0 <;> cases a <;> simp [pyfDiv, h]
  | nan => cases a <;> simp [pyfDiv]
  | inf n => cases a <;> simp [pyfDiv]

set_option maxHeartbeats 2000000 in
/-- The sequential early-return structure of `entry_conditions` is equivalent
to the conjunction of the seven filters; in particular it never raises. -/
theorem entry_conditions_eq_spec (r : Record) :
    entry_conditions r = some (entrySpecB r) := by
  unfold entry_conditions entrySpecB isLongB winTradesB openRawB priceBandB peB
    profitB trendB
  by_cases h1 : upperL (stripL (pyStr r.Signal_Type)) = ls ("LONG")
  swap
  · simp [h1]
  rw [if_neg (fun hne => hne h1)]
  rw [show decide (upperL (stripL (pyStr r.Signal_Type)) = ls ("LONG")) = true by simp [h1]]
  simp only [Bool.true_and]
  rcases hwr : r.Win_Rate with _ | w
  · simp [hwr]
  rcases hnt : r.Number_Of_Trades with _ | n
  · simp [hwr, hnt]
  simp only [hwr, hnt]
  by_cases h80 : pyfLe w (.fin 80) = true
  · simp [h80]
  replace h80 : pyfLe w (.fin 80) = false := by simpa using h80
  simp only [h80, Bool.false_eq_true, if_false, Bool.not_false, Bool.true_and]
  by_cases h6 : pyfLe n (.fin 6) = true
  · simp [h6]
  replace h6 : pyfLe n (.fin 6) = false := by simpa using h6
  simp only [h6, Bool.false_eq_true, if_false, Bool.not_false, Bool.true_and]
  by_cases hop : containsSub (ls ("no exit yet"))
      (lowerL (stripL (pyStr r.Exit_Signal_Raw))) = true
  swap
  · replace hop : containsSub (ls ("no exit yet"))
        (lowerL (stripL (pyStr r.Exit_Signal_Raw))) = false := by simpa using hop
    simp [hop]
  simp only [hop, Bool.not_true, Bool.false_eq_true, if_false, Bool.true_and]
  repeat' split <;>
    (try simp_all [pyfDiv_eq_none_iff, coerceFloat,
      show pyfLe (.fin 0) (.fin 0) = true from rfl]) <;>
    (try (intros; simp_all))

/-- C8: for a record passing every other entry filter with finite prices and
a positive signal price, acceptance is exactly `-3 < pct < 1` for
`pct = (Today_Price - Signal_Price) / Signal_Price * 100`. -/
theorem c8_price_band :
    ∀ (r : Record) (s t : ℚ),
      isLongB r = true → winTradesB r = true → openRawB r = true →
      r.Today_Price = .ncF (.fin t) → r.Signal_Price = .ncF (.fin s) → 0 < s →
      peB r = true → profitB r = true → trendB r = true →
      (entry_conditions r = some true ↔
        (-3 < (t - s) / s * 100 ∧ (t - s) / s * 100 < 1)) := by
  intro r s t hL hW hO htp hsp hs hpe hpr htr
  rw [entry_conditions_eq_spec]
  unfold entrySpecB priceBandB
  simp only [hL, hW, hO, hpe, hpr, htr, htp, hsp, Bool.true_and, Bool.and_true]
  simp [coerceFloat, pyfLe, pyfSub, pyfDiv, pyfMul, pyfGe, pyfLt,
    show ¬(s ≤ 0) from not_le.mpr hs, show ¬(s = 0) from ne_of_gt hs,
    not_or, not_le, and_comm]

/-- C8 (witness): the spec's boundary example `Signal_Price = 100`,
`Today_Price = 100.9` gives `pct = 0.9`, inside the band. -/
theorem c8_witness :
    entry_conditions goodEntryRec = some true ↔
      (-3 < ((1009/10 : ℚ) - 100) / 100 * 100 ∧ ((1009/10 : ℚ) - 100) / 100 * 100 < 1) :=
  c8_price_band goodEntryRec 100 (1009/10) (by decide) (by decide) (by decide)
    rfl rfl (by norm_num) (by decide) (by decide) (by decide)

/-- C10: `entry_conditions` is total — it never raises, and in particular the
percentage computation never divides by zero — and a record whose
`Signal_Price` or `Today_Price` is missing or uncoercible, or whose
`Signal_Price` coerces to a non-positive value, is rejected. -/
theorem c10_entry_safety :
    ∀ r : Record, entry_conditions r ≠ none ∧
      (badPriceInput r → entry_conditions r = some false) := by
  intro r
  constructor
  · rw [entry_conditions_eq_spec]
    simp
  · intro hbad
    rw [entry_conditions_eq_spec]
    suffices h : priceBandB r = false by
      unfold entrySpecB
      rw [h]
      simp
    unfold priceBandB
    rcases hbad with h | h | ⟨sct, hct, hq⟩ | ⟨sct, hct, hq⟩ | ⟨q, hcq, hq0⟩
    · cases hc : coerceFloat r.Today_Price <;> simp [h, coerceFloat, hc]
    · simp [h, coerceFloat]
    · cases hc : coerceFloat r.Today_Price <;> simp [hct, coerceFloat, hq, hc]
    · simp [hct, coerceFloat, hq]
    · cases hc : coerceFloat r.Today_Price <;>
        simp [hcq, hc, pyfLe, hq0]

/-- C10 (witness): the all-missing record is rejected and raises nothing. -/
theorem c10_witness :
    entry_conditions emptyRecord ≠ none ∧ entry_conditions emptyRecord = some false :=
  ⟨(c10_entry_safety emptyRecord).1, (c10_entry_safety emptyRecord).2 (Or.inl rfl)⟩

/-- Every record emitted by the new-entry selection loop qualifies, comes from
the scanned records, and has a key not among the already-present keys. -/
theorem selectNewEntries_sound :
    ∀ (recs : List Record) (ks : List PyCell) (ns : List Record),
      selectNewEntries recs ks = some ns →
      ∀ r ∈ ns, entry_conditions r = some true ∧ r ∈ recs ∧
        memCell r.Dedup_Key ks = false := by
  intro recs
  induction recs with
  | nil =>
    intro ks ns h r hr
    unfold selectNewEntries at h
    cases h
    simp at hr
  | cons x rs ih =>
    intro ks ns h r hr
    unfold selectNewEntries at h
    rcases he : entry_conditions x with _ | b
    · rw [he] at h
      simp at h
    · rw [he] at h
      cases b
      · dsimp only [] at h
        obtain ⟨hc, hm, hk⟩ := ih ks ns h r hr
        exact ⟨hc, List.mem_cons_of_mem x hm, hk⟩
      · dsimp only [] at h
        by_cases hmem : memCell x.Dedup_Key ks = true
        · rw [if_pos hmem] at h
          obtain ⟨hc, hm, hk⟩ := ih ks ns h r hr
          exact ⟨hc, List.mem_cons_of_mem x hm, hk⟩
        · rw [if_neg hmem] at h
          rcases hrec : selectNewEntries rs (x.Dedup_Key :: ks) with _ | ns2
          · rw [hrec] at h
            simp at h
          · rw [hrec] at h
            dsimp only [Option.map] at h
            cases h
            rcases List.mem_cons.mp hr with hrx | hr2
            · subst hrx
              exact ⟨he, List.mem_cons_self r rs,
                by simpa using hmem⟩
            · obtain ⟨hc, hm, hk⟩ := ih (x.Dedup_Key :: ks) ns2 hrec r hr2
              refine ⟨hc, List.mem_cons_of_mem x hm, ?_⟩
              simp only [memCell, List.any_cons, Bool.or_eq_false_iff] at hk
              simp [memCell, hk.2]

/-- C1 (amended): on an empty ledger snapshot `main` raises and writes
nothing; on a non-empty snapshot the potential-entry output is not recomputed
from scratch — it is the previously persisted rows (keys recomputed) followed
by exactly those ledger records that pass `entry_conditions` and carry a
dedup key not already present; the potential-exit output, when produced, is
the full recomputed filter. -/
theorem c1_incremental :
    (∀ existing : List Record, mainEntryOutput [] existing = none) ∧
    (∀ (all existing out : List Record),
       mainEntryOutput all existing = some out →
       ∃ suffix, out = withKeys existing ++ suffix ∧
         ∀ r ∈ suffix, entry_conditions r = some true ∧ r ∈ ensureKeys all ∧
           memCell r.Dedup_Key ((withKeys existing).map (fun x => x.Dedup_Key)) = false) ∧
    (∀ (all out : List Record) (fd : ℤ),
       mainExitOutput all fd = some out →
       out = (ensureKeys all).filter (fun r => exit_conditions r fd)) := by
  refine ⟨?_, ?_, ?_⟩
  · intro existing
    rfl
  · intro all existing out h
    unfold mainEntryOutput at h
    by_cases hall : all = []
    · rw [if_pos hall] at h
      cases h
    · rw [if_neg hall] at h
      dsimp only [] at h
      rcases hsel : selectNewEntries (ensureKeys all)
          ((withKeys existing).map (fun r => r.Dedup_Key)) with _ | ns
      · rw [hsel] at h
        simp at h
      · rw [hsel] at h
        dsimp only [Option.map] at h
        cases h
        exact ⟨ns, rfl, selectNewEntries_sound _ _ _ hsel⟩
  · intro all out fd h
    unfold mainExitOutput at h
    by_cases hall : all = []
    · rw [if_pos hall] at h
      cases h
    · rw [if_neg hall] at h
      have hout : selectExits (ensureKeys all) fd = out := Option.some.inj h
      have hgen : ∀ l : List Record,
          selectExits l fd = l.filter (fun r => exit_conditions r fd) := by
        intro l
        induction l with
        | nil => rfl
        | cons x xs ih =>
          unfold selectExits
          rw [List.filter_cons]
          cases hx : exit_conditions x fd <;> simp [hx, ih]
      rw [← hout, hgen]

/-- C1 (witness): with one persisted (non-qualifying) row and one qualifying
ledger record, the output decomposes as persisted row plus new suffix. -/
theorem c1_witness :
    ∃ suffix, wOut = withKeys [emptyRecord] ++ suffix ∧
      ∀ r ∈ suffix, entry_conditions r = some true ∧ r ∈ ensureKeys [goodEntryRec] ∧
        memCell r.Dedup_Key ((withKeys [emptyRecord]).map (fun x => x.Dedup_Key)) = false :=
  c1_incremental.2.1 [goodEntryRec] [emptyRecord] wOut (by decide)


theorem cellBEq_symm (a b : PyCell) : cellBEq a b = cellBEq b a := by
  cases a <;> cases b <;> simp [cellBEq, eq_comm]

theorem cellBEq_trans {a b c : PyCell} (h1 : cellBEq a b = true)
    (h2 : cellBEq b c = true) : cellBEq a c = true := by
  cases a <;> cases b <;> cases c <;> simp_all [cellBEq]

theorem cellBEq_refl_str {k : PyCell} (h : isStrKey k = true) : cellBEq k k = true := by
  cases k <;> simp_all [isStrKey, cellBEq]

theorem cellBEq_str_right {s : List Char} {k : PyCell}
    (h : cellBEq (.pcStr s) k = true) : k = .pcStr s := by
  cases k <;> simp_all [cellBEq]

theorem map_fix_id {a : Type} (l : List a) (f : a → a) (h : ∀ x ∈ l, f x = x) :
    l.map f = l := by
  induction l with
  | nil => rfl
  | cons x t ih =>
    simp only [List.map_cons, h x (List.mem_cons_self x t),
      ih (fun y hy => h y (List.mem_cons_of_mem x hy))]

theorem dictInsert_absent (L : List (PyCell × Record)) (k : PyCell) (v : Record)
    (h : keyInL L k = false) : dictInsert L k v = L ++ [(k, v)] := by
  induction L with
  | nil => rfl
  | cons p t ih =>
    obtain ⟨h1, h2⟩ : cellBEq p.1 k = false ∧ keyInL t k = false := by
      simpa [keyInL, Bool.or_eq_false_iff] using h
    cases p
    simp [dictInsert, h1, ih h2]

theorem keyInL_dictInsert (L : List (PyCell × Record)) (k k2 : PyCell) (v : Record) :
    keyInL (dictInsert L k v) k2 = (keyInL L k2 || cellBEq k k2) := by
  induction L with
  | nil => simp [dictInsert, keyInL]
  | cons p t ih =>
    cases p with
    | mk k1 v1 =>
      by_cases hb : cellBEq k1 k = true
      · rw [show dictInsert ((k1, v1) :: t) k v = (k1, v) :: t by simp [dictInsert, hb]]
        by_cases hk2 : cellBEq k k2 = true
        · have : cellBEq k1 k2 = true := cellBEq_trans hb hk2
          simp [keyInL, this]
        · replace hk2 : cellBEq k k2 = false := by simpa using hk2
          simp [keyInL, hk2]
      · replace hb : cellBEq k1 k = false := by simpa using hb
        rw [show dictInsert ((k1, v1) :: t) k v = (k1, v1) :: dictInsert t k v by
          simp [dictInsert, hb]]
        have ih2 : ((dictInsert t k v).any fun p => cellBEq p.1 k2) =
            ((t.any fun p => cellBEq p.1 k2) || cellBEq k k2) := by
          simpa [keyInL] using ih
        simp [keyInL, ih2, Bool.or_assoc]

theorem dictInsert_present (L : List (PyCell × Record)) (k : PyCell) (v : Record)
    (hu : uniqKeysB L = true) (h : keyInL L k = true) :
    dictInsert L k v = L.map (fun p => if cellBEq p.1 k then (p.1, v) else p) := by
  induction L with
  | nil => simp [keyInL] at h
  | cons p t ih =>
    cases p with
    | mk k1 v1 =>
      obtain ⟨hu1, hu2⟩ : keyInL t k1 = false ∧ uniqKeysB t = true := by
        simpa [uniqKeysB, Bool.and_eq_true] using hu
      by_cases hb : cellBEq k1 k = true
      · rw [show dictInsert ((k1, v1) :: t) k v = (k1, v) :: t by simp [dictInsert, hb]]
        have htail : ∀ p2 ∈ t, (if cellBEq p2.1 k then (p2.1, v) else p2) = p2 := by
          intro p2 hp2
          have hfalse : cellBEq p2.1 k = false := by
            by_contra hc
            replace hc : cellBEq p2.1 k = true := by simpa using hc
            have : cellBEq p2.1 k1 = true :=
              cellBEq_trans hc (by rw [cellBEq_symm]; exact hb)
            have : keyInL t k1 = true := by
              simp only [keyInL, List.any_eq_true]
              exact ⟨p2, hp2, this⟩
            simp_all
          simp [hfalse]
        simp only [List.map_cons, hb, if_true, map_fix_id t _ htail]
      · replace hb : cellBEq k1 k = false := by simpa using hb
        have hkt : keyInL t k = true := by
          simpa [keyInL, hb] using h
        rw [show dictInsert ((k1, v1) :: t) k v = (k1, v1) :: dictInsert t k v by
          simp [dictInsert, hb]]
        simp only [List.map_cons, hb, Bool.false_eq_true, if_false, ih hu2 hkt]

theorem uniqKeysB_dictInsert (L : List (PyCell × Record)) (k : PyCell) (v : Record)
    (hu : uniqKeysB L = true) : uniqKeysB (dictInsert L k v) = true := by
  induction L with
  | nil => simp [dictInsert, uniqKeysB, keyInL]
  | cons p t ih =>
    cases p with
    | mk k1 v1 =>
      obtain ⟨hu1, hu2⟩ : keyInL t k1 = false ∧ uniqKeysB t = true := by
        simpa [uniqKeysB, Bool.and_eq_true] using hu
      by_cases hb : cellBEq k1 k = true
      · rw [show dictInsert ((k1, v1) :: t) k v = (k1, v) :: t by simp [dictInsert, hb]]
        simp [uniqKeysB, hu1, hu2]
      · replace hb : cellBEq k1 k = false := by simpa using hb
        rw [show dictInsert ((k1, v1) :: t) k v = (k1, v1) :: dictInsert t k v by
          simp [dictInsert, hb]]
        have hkk1 : cellBEq k k1 = false := by rw [cellBEq_symm]; exact hb
        simp [uniqKeysB, keyInL_dictInsert, hu1, hkk1, ih hu2]

theorem lookupL_dictInsert_other (L : List (PyCell × Record)) (k kL : PyCell)
    (v : Record) (h : cellBEq k kL = false) :
    lookupL (dictInsert L k v) kL = lookupL L kL := by
  induction L with
  | nil => simp [dictInsert, lookupL, h]
  | cons p t ih =>
    cases p with
    | mk k1 v1 =>
      by_cases hb : cellBEq k1 k = true
      · rw [show dictInsert ((k1, v1) :: t) k v = (k1, v) :: t by simp [dictInsert, hb]]
        have hk1 : cellBEq k1 kL = false := by
          by_contra hc
          replace hc : cellBEq k1 kL = true := by simpa using hc
          have : cellBEq k kL = true :=
            cellBEq_trans (by rw [cellBEq_symm]; exact hb) hc
          simp_all
        simp [lookupL, hk1]
      · replace hb : cellBEq k1 k = false := by simpa using hb
        rw [show dictInsert ((k1, v1) :: t) k v = (k1, v1) :: dictInsert t k v by
          simp [dictInsert, hb]]
        by_cases hk1 : cellBEq k1 kL = true
        · simp [lookupL, hk1]
        · replace hk1 : cellBEq k1 kL = false := by simpa using hk1
          simp [lookupL, hk1, ih]

theorem lookupL_dictInsert_same (L : List (PyCell × Record)) (k kL : PyCell)
    (v : Record) (h : cellBEq k kL = true) :
    lookupL (dictInsert L k v) kL = some v := by
  induction L with
  | nil => simp [dictInsert, lookupL, h]
  | cons p t ih =>
    cases p with
    | mk k1 v1 =>
      by_cases hb : cellBEq k1 k = true
      · rw [show dictInsert ((k1, v1) :: t) k v = (k1, v) :: t by simp [dictInsert, hb]]
        have : cellBEq k1 kL = true := cellBEq_trans hb h
        simp [lookupL, this]
      · replace hb : cellBEq k1 k = false := by simpa using hb
        rw [show dictInsert ((k1, v1) :: t) k v = (k1, v1) :: dictInsert t k v by
          simp [dictInsert, hb]]
        have hk1 : cellBEq k1 kL = false := by
          by_contra hc
          replace hc : cellBEq k1 kL = true := by simpa using hc
          have : cellBEq k1 k = true :=
            cellBEq_trans hc (by rw [cellBEq_symm]; exact h)
          simp_all
        simp [lookupL, hk1, ih]

theorem mergeRecords_cons (L : List (PyCell × Record)) (x : Record) (xs : List Record) :
    mergeRecords L (x :: xs) = mergeRecords (dictInsert L x.Dedup_Key x) xs := rfl

theorem uniqKeysB_merge (L : List (PyCell × Record)) (xs : List Record)
    (hu : uniqKeysB L = true) : uniqKeysB (mergeRecords L xs) = true := by
  induction xs generalizing L with
  | nil => exact hu
  | cons x t ih =>
    rw [mergeRecords_cons]
    exact ih _ (uniqKeysB_dictInsert _ _ _ hu)

theorem keyIn_cons (x : Record) (t : List Record) (k : PyCell) :
    keyIn k (x :: t) = (cellBEq x.Dedup_Key k || keyIn k t) := by
  simp [keyIn]

theorem lastValR_isSome (xs : List Record) (k : PyCell) :
    (lastValR xs k).isSome = keyIn k xs := by
  induction xs with
  | nil => simp [lastValR, keyIn]
  | cons x t ih =>
    rw [keyIn_cons]
    simp only [lastValR]
    rcases hl : lastValR t k with _ | v
    · rw [hl] at ih
      simp only [Option.isSome_none] at ih
      rw [← ih, Bool.or_false]
      cases hb : cellBEq x.Dedup_Key k <;> simp
    · rw [hl] at ih
      simp only [Option.isSome_some] at ih
      rw [← ih, Bool.or_true]
      simp

theorem lookupL_isSome (L : List (PyCell × Record)) (k : PyCell) :
    (lookupL L k).isSome = keyInL L k := by
  induction L with
  | nil => simp [lookupL, keyInL]
  | cons p t ih =>
    cases p with
    | mk k1 v1 =>
      by_cases hb : cellBEq k1 k = true
      · simp [lookupL, keyInL, hb]
      · replace hb : cellBEq k1 k = false := by simpa using hb
        simp [lookupL, keyInL, hb, ih]

theorem lookupL_merge_stable (L : List (PyCell × Record)) (xs : List Record)
    (k : PyCell) (h : keyIn k xs = false) :
    lookupL (mergeRecords L xs) k = lookupL L k := by
  induction xs generalizing L with
  | nil => rfl
  | cons x t ih =>
    obtain ⟨h1, h2⟩ : cellBEq x.Dedup_Key k = false ∧ keyIn k t = false := by
      simpa [keyIn, Bool.or_eq_false_iff] using h
    rw [mergeRecords_cons, ih _ h2, lookupL_dictInsert_other _ _ _ _ h1]

theorem lastValR_none_of_not_keyIn (xs : List Record) (k : PyCell)
    (h : keyIn k xs = false) : lastValR xs k = none := by
  have := lastValR_isSome xs k
  rw [h] at this
  rcases hl : lastValR xs k with _ | v
  · rfl
  · rw [hl] at this
    simp at this

theorem lookupL_merge_last (L : List (PyCell × Record)) (xs : List Record)
    (k : PyCell) (h : keyIn k xs = true) :
    lookupL (mergeRecords L xs) k = lastValR xs k := by
  induction xs generalizing L with
  | nil => simp [keyIn] at h
  | cons x t ih =>
    rw [mergeRecords_cons]
    by_cases ht : keyIn k t = true
    · rw [ih _ ht]
      have hsome : (lastValR t k).isSome = true := by rw [lastValR_isSome, ht]
      rcases hl : lastValR t k with _ | v
      · rw [hl] at hsome
        simp at hsome
      · simp [lastValR, hl]
    · replace ht : keyIn k t = false := by simpa using ht
      have hx : cellBEq x.Dedup_Key k = true := by
        rw [keyIn_cons] at h
        rcases Bool.or_eq_true_iff.mp h with hx | hx
        · exact hx
        · rw [ht] at hx
          cases hx
      rw [lookupL_merge_stable _ _ _ ht, lookupL_dictInsert_same _ _ _ _ hx,
        show lastValR (x :: t) k = some x by
          simp [lastValR, lastValR_none_of_not_keyIn t k ht, hx]]

theorem keyInL_merge_of_keyIn (L : List (PyCell × Record)) (xs : List Record)
    (k : PyCell) (h : keyIn k xs = true) :
    keyInL (mergeRecords L xs) k = true := by
  rw [← lookupL_isSome, lookupL_merge_last _ _ _ h, lastValR_isSome, h]

theorem keyIn_str (xs : List Record) (k : PyCell)
    (hs : strKeyed xs = true) (h : keyIn k xs = true) :
    ∃ s, k = .pcStr s := by
  induction xs with
  | nil => simp [keyIn] at h
  | cons x t ih =>
    obtain ⟨hx, ht⟩ : isStrKey x.Dedup_Key = true ∧ strKeyed t = true := by
      simpa [strKeyed, Bool.and_eq_true] using hs
    rw [keyIn_cons] at h
    rcases Bool.or_eq_true_iff.mp h with hb | hb
    · rcases hk : x.Dedup_Key with _ | _ | s
      · rw [hk] at hx
        simp [isStrKey] at hx
      · rw [hk] at hx
        simp [isStrKey] at hx
      · rw [hk] at hb
        exact ⟨s, cellBEq_str_right hb⟩
    · exact ih ht hb

theorem lookupL_of_mem (L : List (PyCell × Record)) (k : PyCell) (w : Record)
    (hu : uniqKeysB L = true) (hm : (k, w) ∈ L) (hs : isStrKey k = true) :
    lookupL L k = some w := by
  induction L with
  | nil => simp at hm
  | cons p t ih =>
    cases p with
    | mk k1 v1 =>
      obtain ⟨hu1, hu2⟩ : keyInL t k1 = false ∧ uniqKeysB t = true := by
        simpa [uniqKeysB, Bool.and_eq_true] using hu
      rcases List.mem_cons.mp hm with hh | hh
      · obtain ⟨e1, e2⟩ : k1 = k ∧ v1 = w := by
          have := hh
          injection this with a b
          exact ⟨a.symm, b.symm⟩
        subst e1
        subst e2
        simp [lookupL, cellBEq_refl_str hs]
      · have hk1 : cellBEq k1 k = false := by
          by_contra hc
          replace hc : cellBEq k1 k = true := by simpa using hc
          have hmem : keyInL t k1 = true := by
            simp only [keyInL, List.any_eq_true]
            exact ⟨(k, w), hh, by rw [cellBEq_symm]; exact hc⟩
          rw [hmem] at hu1
          cases hu1
        simp [lookupL, hk1, ih hu2 hh]

theorem merge_map_last (xs : List Record) (L : List (PyCell × Record))
    (hu : uniqKeysB L = true) (hs : strKeyed xs = true)
    (hk : ∀ k, keyIn k xs = true → keyInL L k = true) :
    mergeRecords L xs =
      L.map (fun p => match lastValR xs p.1 with
        | some v => (p.1, v)
        | none => p) := by
  induction xs generalizing L with
  | nil =>
    rw [show mergeRecords L [] = L from rfl]
    rw [map_fix_id]
    intro p _
    simp [lastValR]
  | cons x t ih =>
    obtain ⟨hx, ht⟩ : isStrKey x.Dedup_Key = true ∧ strKeyed t = true := by
      simpa [strKeyed, Bool.and_eq_true] using hs
    have hkx : keyInL L x.Dedup_Key = true := by
      apply hk
      rw [keyIn_cons, cellBEq_refl_str hx, Bool.true_or]
    rw [mergeRecords_cons, dictInsert_present _ _ _ hu hkx]
    rw [ih _ (by
        rw [← dictInsert_present _ _ _ hu hkx]
        exact uniqKeysB_dictInsert _ _ _ hu)
      ht
      (by
        intro k hkt
        rw [← dictInsert_present _ _ _ hu hkx, keyInL_dictInsert]
        rw [hk k (by rw [keyIn_cons, hkt, Bool.or_true])]
        simp)]
    rw [List.map_map]
    apply List.map_congr_left
    intro p _
    cases p with
    | mk k0 w =>
      simp only [Function.comp_apply]
      by_cases hb : cellBEq k0 x.Dedup_Key = true
      · have hb2 : cellBEq x.Dedup_Key k0 = true := by rw [cellBEq_symm]; exact hb
        simp only [hb, if_true]
        rcases hl : lastValR t k0 with _ | v
        · simp [lastValR, hl, hb2]
        · simp [lastValR, hl]
      · replace hb : cellBEq k0 x.Dedup_Key = false := by simpa using hb
        have hb2 : cellBEq x.Dedup_Key k0 = false := by rw [cellBEq_symm]; exact hb
        simp only [hb, Bool.false_eq_true, if_false]
        rcases hl : lastValR t k0 with _ | v
        · simp [lastValR, hl, hb2]
        · simp [lastValR, hl]

theorem merge_idem (L : List (PyCell × Record)) (xs : List Record)
    (hu : uniqKeysB L = true) (hs : strKeyed xs = true) :
    mergeRecords (mergeRecords L xs) xs = mergeRecords L xs := by
  have huM : uniqKeysB (mergeRecords L xs) = true := uniqKeysB_merge _ _ hu
  rw [merge_map_last xs (mergeRecords L xs) huM hs
    (fun k hkk => keyInL_merge_of_keyIn _ _ _ hkk)]
  apply map_fix_id
  intro p hp
  cases p with
  | mk k0 w =>
    rcases hl : lastValR xs k0 with _ | v
    · rfl
    · have hkey : keyIn k0 xs = true := by
        rw [← lastValR_isSome, hl]
        rfl
      obtain ⟨s, hks⟩ := keyIn_str xs k0 hs hkey
      have h1 : lookupL (mergeRecords L xs) k0 = some w :=
        lookupL_of_mem _ _ _ huM hp (by rw [hks]; rfl)
      have h2 : lookupL (mergeRecords L xs) k0 = some v := by
        rw [lookupL_merge_last _ _ _ hkey, hl]
      rw [h1] at h2
      injection h2 with hv
      rw [hv]

/-- C7: ledger merge is key-based last-write-wins with whole-record
overwrite: merging `[r]` into an empty ledger and then `[r2]` with the same
dedup key yields exactly one entry holding `r2`; and replaying the same
incoming sequence over any well-formed (unique-key) ledger is idempotent. -/
theorem c7_merge_lww_idem :
    (∀ r r2 : Record, cellBEq r.Dedup_Key r2.Dedup_Key = true →
       mergeRecords (mergeRecords [] [r]) [r2] = [(r.Dedup_Key, r2)]) ∧
    (∀ (L : List (PyCell × Record)) (xs : List Record),
       uniqKeysB L = true → strKeyed xs = true →
       mergeRecords (mergeRecords L xs) xs = mergeRecords L xs) := by
  constructor
  · intro r r2 h
    simp [mergeRecords, List.foldl, dictInsert, h]
  · exact fun L xs hu hs => merge_idem L xs hu hs

/-- C7 (witness): concrete last-write-wins pair and a concrete idempotent
replay over a non-empty ledger. -/
theorem c7_witness :
    mergeRecords (mergeRecords [] [mergeRecA]) [mergeRecB] =
      [(mergeRecA.Dedup_Key, mergeRecB)] ∧
    mergeRecords (mergeRecords mergeLedger0 [mergeRecA, mergeRecB]) [mergeRecA, mergeRecB] =
      mergeRecords mergeLedger0 [mergeRecA, mergeRecB] :=
  ⟨c7_merge_lww_idem.1 mergeRecA mergeRecB (by decide),
   c7_merge_lww_idem.2 mergeLedger0 [mergeRecA, mergeRecB] (by decide) (by decide)⟩

end RD
